import Mathlib

/-!
# Verification of the fee core of buddy-backend

Shallow embedding of `pkg/fee` (the Term/Log/Query engines of the Buddy
System club-fee service).  The persistence layer (MongoDB) is modelled as an
explicit state `DB` holding the three collections (`fees`, `logs`,
`members`) as lists in natural (insertion) order; each storage primitive of
an operation may fail, driven by a positional fault schedule
(`Faults`), where the empty schedule means every primitive succeeds.

Mongo primitives are modelled as follows:
* `FindOne` with an equality filter: first matching document in natural
  order, `ErrNoDocuments` when there is none;
* `InsertOne`: append to the collection;
* `UpdateOne` with `$push` / `$pull`: update of the first matching
  document (a no-op when nothing matches);
* `UpdateMany` with `$set`: update of every matching document;
* `DeleteOne`: removal of the first matching document;
* `Find`: all matching documents in natural order.
-/

namespace BuddyFee

/-- Payment-log object ids (`primitive.ObjectID`), modelled as naturals. -/
abbrev ObjectId := Nat

/-- A positional fault schedule: the i-th entry gives the outcome of the
i-th storage primitive executed by an operation (`none` = success,
`some msg` = the primitive fails with that error).  The empty list is the
fault-free schedule. -/
abbrev Faults := List (Option String)

/-- Pop the outcome of the next storage primitive off the schedule. -/
def next : Faults → Option String × Faults
  | [] => (none, [])
  | f :: fs => (f, fs)

/-- The `type` field of a payment log. -/
inductive LogType
  | unapproved
  | approved
  | direct
deriving DecidableEq, Repr

/-- Modelled from the spec: the `Log` record of the log engine (its source
file is not under `src/`): `{id, member_id, type, amount, updated_at}`,
with `updated_at` in Unix seconds. -/
structure Log where
  id : ObjectId
  memberID : String
  type : LogType
  amount : Int
  updatedAt : Int
deriving DecidableEq, Repr

/-- The `Fee` record (a Term): natural key (year, semester), required
amount, and the roster of associated log ids. -/
structure Fee where
  year : Int
  semester : Int
  amount : Int
  logs : List ObjectId
deriving DecidableEq, Repr

/-- Modelled from the spec: a `member.Member` record (its source file is
not under `src/`).  Only the `id` field is consulted by the fee core; the
`name` field stands for the rest of the record. -/
structure Member where
  id : String
  name : String
deriving DecidableEq, Repr

/-- The persistent state: the `fees`, `logs` and `members` collections of
the `club` database, in natural (insertion) order. -/
structure DB where
  fees : List Fee
  logs : List Log
  members : List Member
deriving DecidableEq, Repr

/-- Errors surfaced by the operations.  `noDocuments` is
`mongo.ErrNoDocuments` (the spec's `TermNotFound`); `duplicatedFee` is
`ErrDuplicatedFee` (the spec's `DuplicateTerm`); `storage` is any other
persistence-layer failure, carrying its message. -/
inductive Err
  | duplicatedFee
  | noDocuments
  | storage (msg : String)
deriving DecidableEq, Repr

/-- The (year, semester) equality filter on the `fees` collection. -/
def feeMatch (year semester : Int) (f : Fee) : Bool :=
  f.year == year && f.semester == semester

/-- `FindOne` on `fees` with the (year, semester) filter. -/
def findOneFee (year semester : Int) (db : DB) : Option Fee :=
  db.fees.find? (feeMatch year semester)

/-- `UpdateOne`: apply `u` to the first element satisfying `p`. -/
def updateFirst (p : α → Bool) (u : α → α) : List α → List α
  | [] => []
  | x :: xs => if p x then u x :: xs else x :: updateFirst p u xs

/-- `DeleteOne`: remove the first element satisfying `p`. -/
def deleteFirst (p : α → Bool) : List α → List α
  | [] => []
  | x :: xs => if p x then xs else x :: deleteFirst p xs

/-- `UpdateOne` on `fees` with `$push logs: id`. -/
def pushLog (year semester : Int) (id : ObjectId) (db : DB) : DB :=
  { db with
    fees := updateFirst (feeMatch year semester)
      (fun f => { f with logs := f.logs ++ [id] }) db.fees }

/-- `UpdateOne` on `fees` with `$pull logs: id` (removes every occurrence
of `id` from the array of the first matching document). -/
def pullLog (year semester : Int) (id : ObjectId) (db : DB) : DB :=
  { db with
    fees := updateFirst (feeMatch year semester)
      (fun f => { f with logs := f.logs.filter (fun x => x != id) }) db.fees }

/-- `DeleteOne` on `logs` with the `_id` filter. -/
def deleteLog (id : ObjectId) (db : DB) : DB :=
  { db with logs := deleteFirst (fun l => l.id == id) db.logs }

/-- `InsertOne` on `logs`. -/
def insertLog (l : Log) (db : DB) : DB :=
  { db with logs := db.logs ++ [l] }

/-- `New` (source): a fresh `Fee` with an empty log roster. -/
def New (year semester amount : Int) : Fee :=
  { year := year, semester := semester, amount := amount, logs := [] }

/-- Modelled from the spec: the payment-log constructor `NewLog` of the
log engine (its source file is not under `src/`): a system-generated fresh
id, the given member id, type and amount, and `updated_at` set to the
creation time.  The fresh id and the clock reading are explicit
parameters. -/
def NewLog (freshId : ObjectId) (memberID : String) (ty : LogType)
    (amount : Int) (now : Int) : Log :=
  { id := freshId, memberID := memberID, type := ty, amount := amount,
    updatedAt := now }

/-- `Create(year, semester, amount)` (source lines 44-71).  Primitives, in
order: connect, `FindOne` on `fees`, `InsertOne`, disconnect.  Note the Go
code enters the duplicate branch whenever the lookup's error differs from
`ErrNoDocuments` — i.e. both when a document was found and when the lookup
failed with a storage error. -/
def Create (year semester amount : Int) (db : DB) (fs : Faults) :
    DB × Option Err :=
  let (f0, fs) := next fs
  match f0 with
  | some e => (db, some (.storage e))
  | none =>
    let (f1, fs) := next fs
    match f1 with
    | some _ =>
      -- the lookup failed with an error other than ErrNoDocuments:
      -- the source takes the duplicate branch (disconnect, ErrDuplicatedFee)
      let (fd, _) := next fs
      match fd with
      | some e => (db, some (.storage e))
      | none => (db, some .duplicatedFee)
    | none =>
      match findOneFee year semester db with
      | some _ =>
        let (fd, _) := next fs
        match fd with
        | some e => (db, some (.storage e))
        | none => (db, some .duplicatedFee)
      | none =>
        let (f2, fs) := next fs
        match f2 with
        | some e => (db, some (.storage e))
        | none =>
          let db' := { db with fees := db.fees ++ [New year semester amount] }
          let (fd, _) := next fs
          match fd with
          | some e => (db', some (.storage e))
          | none => (db', none)

/-- The state of `Submit` between its two storage steps: the log has been
inserted but not yet referenced by the Term. -/
def SubmitMid (memberID : String) (amount : Int) (freshId : ObjectId)
    (now : Int) (db : DB) : DB :=
  insertLog (NewLog freshId memberID .unapproved amount now) db

/-- `Submit(memberID, year, semester, amount)` (source lines 79-110).
Primitives, in order: connect, `InsertOne` on `logs`, `UpdateOne`
(`$push`) on `fees`, disconnect. -/
def Submit (memberID : String) (year semester amount : Int)
    (freshId : ObjectId) (now : Int) (db : DB) (fs : Faults) :
    DB × Option Err :=
  let (f0, fs) := next fs
  match f0 with
  | some e => (db, some (.storage e))
  | none =>
    let (f1, fs) := next fs
    match f1 with
    | some e => (db, some (.storage e))
    | none =>
      let db1 := SubmitMid memberID amount freshId now db
      let (f2, fs) := next fs
      match f2 with
      | some e => (db1, some (.storage e))
      | none =>
        let db2 := pushLog year semester freshId db1
        let (fd, _) := next fs
        match fd with
        | some e => (db2, some (.storage e))
        | none => (db2, none)

/-- `Amount(year, semester, memberID)` (source lines 118-161).  Primitives,
in order: connect, `FindOne` on `fees`, `Find` on `logs` with the
`{member_id: memberID, type: "approved"}` filter, disconnect.  Note the
log filter does not mention the Term's `logs` roster: the sum ranges over
the whole `logs` collection. -/
def Amount (year semester : Int) (memberID : String) (db : DB)
    (fs : Faults) : Int × Option Err :=
  let (f0, fs) := next fs
  match f0 with
  | some e => (0, some (.storage e))
  | none =>
    let (f1, fs) := next fs
    match f1 with
    | some e => (0, some (.storage e))
    | none =>
      match findOneFee year semester db with
      | none => (0, some .noDocuments)
      | some _ =>
        let (f2, fs) := next fs
        match f2 with
        | some e => (0, some (.storage e))
        | none =>
          let sum := (db.logs.filter
            (fun l => l.memberID == memberID && l.type == .approved)).foldl
            (fun acc l => acc + l.amount) 0
          let (fd, _) := next fs
          match fd with
          | some e => (sum, some (.storage e))
          | none => (sum, none)

/-- One `amounts[log.MemberID] += log.Amount` step on the Go map, modelled
as an association list in first-insertion order. -/
def bump : List (String × Int) → String → Int → List (String × Int)
  | [], k, v => [(k, v)]
  | (k', v') :: rest, k, v =>
    if k' == k then (k', v' + v) :: rest else (k', v') :: bump rest k v

/-- The `amounts` map built by `Dones`/`Yets`: group the given logs by
`member_id`, summing `amount`. -/
def amountsMap (ls : List Log) : List (String × Int) :=
  ls.foldl (fun m l => bump m l.memberID l.amount) []

/-- `Find` on `logs` with the `{_id: {$in: fee.logs}, type: "approved"}`
filter (natural order). -/
def termApproved (fee : Fee) (db : DB) : List Log :=
  db.logs.filter (fun l => fee.logs.contains l.id && l.type == .approved)

/-- The total `amount` of the logs of `ls` whose `member_id` is `m`. -/
def sumFor (ls : List Log) (m : String) : Int :=
  ((ls.filter (fun l => l.memberID == m)).map (fun l => l.amount)).sum

/-- `Dones(year, semester)` (source lines 169-241).  Primitives, in order:
connect, `FindOne` on `fees`, `Find` on `logs`, `Find` on `members`,
disconnect.  The qualifying member ids are those whose grouped sum is at
least the Term's `amount`; they are resolved against the `members`
collection (natural order). -/
def Dones (year semester : Int) (db : DB) (fs : Faults) :
    List Member × Option Err :=
  let (f0, fs) := next fs
  match f0 with
  | some e => ([], some (.storage e))
  | none =>
    let (f1, fs) := next fs
    match f1 with
    | some e => ([], some (.storage e))
    | none =>
      match findOneFee year semester db with
      | none => ([], some .noDocuments)
      | some fee =>
        let (f2, fs) := next fs
        match f2 with
        | some e => ([], some (.storage e))
        | none =>
          let amounts := amountsMap (termApproved fee db)
          let arr := (amounts.filter
            (fun p => decide (fee.amount ≤ p.2))).map (fun p => p.1)
          let (f3, fs) := next fs
          match f3 with
          | some e => ([], some (.storage e))
          | none =>
            let members := db.members.filter (fun mb => arr.contains mb.id)
            let (fd, _) := next fs
            match fd with
            | some e => (members, some (.storage e))
            | none => (members, none)

/-- `Yets(year, semester)` (source lines 249-321): same pipeline as
`Dones`, selecting the member ids whose grouped sum is strictly below the
Term's `amount`. -/
def Yets (year semester : Int) (db : DB) (fs : Faults) :
    List Member × Option Err :=
  let (f0, fs) := next fs
  match f0 with
  | some e => ([], some (.storage e))
  | none =>
    let (f1, fs) := next fs
    match f1 with
    | some e => ([], some (.storage e))
    | none =>
      match findOneFee year semester db with
      | none => ([], some .noDocuments)
      | some fee =>
        let (f2, fs) := next fs
        match f2 with
        | some e => ([], some (.storage e))
        | none =>
          let amounts := amountsMap (termApproved fee db)
          let arr := (amounts.filter
            (fun p => decide (p.2 < fee.amount))).map (fun p => p.1)
          let (f3, fs) := next fs
          match f3 with
          | some e => ([], some (.storage e))
          | none =>
            let members := db.members.filter (fun mb => arr.contains mb.id)
            let (fd, _) := next fs
            match fd with
            | some e => (members, some (.storage e))
            | none => (members, none)

/-- The comparison used by `All`'s final sort.  The Go code calls
`sort.Slice` with the strict comparison on `UpdatedAt`; the result is some
permutation that is nondecreasing in `UpdatedAt`.  We model it with the
deterministic insertion sort on the reflexive comparison, a refinement of
that behaviour. -/
def byUpdatedAt (a b : Log) : Prop :=
  a.updatedAt ≤ b.updatedAt

instance : DecidableRel byUpdatedAt :=
  fun a b => Int.decLe a.updatedAt b.updatedAt

instance : IsTotal Log byUpdatedAt :=
  ⟨fun a b => Int.le_total a.updatedAt b.updatedAt⟩

instance : IsTrans Log byUpdatedAt :=
  ⟨fun _ _ _ hab hbc => le_trans hab hbc⟩

/-- `All(year, semester)` (source lines 329-380).  Primitives, in order:
connect, `FindOne` on `fees`, `Find` on `logs` with the
`{_id: {$in: fee.logs}, $or: [{type: "approved"}, {type: "direct"}]}`
filter, disconnect; the collected logs are then sorted by `updated_at`. -/
def All (year semester : Int) (db : DB) (fs : Faults) :
    List Log × Option Err :=
  let (f0, fs) := next fs
  match f0 with
  | some e => ([], some (.storage e))
  | none =>
    let (f1, fs) := next fs
    match f1 with
    | some e => ([], some (.storage e))
    | none =>
      match findOneFee year semester db with
      | none => ([], some .noDocuments)
      | some fee =>
        let (f2, fs) := next fs
        match f2 with
        | some e => ([], some (.storage e))
        | none =>
          let logs := db.logs.filter (fun l =>
            fee.logs.contains l.id &&
              (l.type == .approved || l.type == .direct))
          let logs := logs.insertionSort byUpdatedAt
          let (fd, _) := next fs
          match fd with
          | some e => (logs, some (.storage e))
          | none => (logs, none)

/-- The `$set` document of `Approve`'s `UpdateMany`, applied to one log:
logs whose `_id` is in `ids` get `type: "approved"` and a refreshed
`updated_at`; the rest are untouched. -/
def approveOne (ids : List ObjectId) (now : Int) (l : Log) : Log :=
  if ids.contains l.id then { l with type := .approved, updatedAt := now }
  else l

/-- `Approve(ids)` (source lines 388-421).  Primitives, in order: connect,
`UpdateMany` on `logs` with the `{_id: {$in: ids}}` filter, disconnect. -/
def Approve (ids : List ObjectId) (now : Int) (db : DB) (fs : Faults) :
    DB × Option Err :=
  let (f0, fs) := next fs
  match f0 with
  | some e => (db, some (.storage e))
  | none =>
    let (f1, fs) := next fs
    match f1 with
    | some e => (db, some (.storage e))
    | none =>
      let db' := { db with logs := db.logs.map (approveOne ids now) }
      let (fd, _) := next fs
      match fd with
      | some e => (db', some (.storage e))
      | none => (db', none)

/-- One iteration of `Reject`'s loop under a fault-free run: pull `id`
from the matching Term's roster, then delete the log record. -/
def rejectStep (year semester : Int) (db : DB) (id : ObjectId) : DB :=
  deleteLog id (pullLog year semester id db)

/-- `Reject`'s per-identifier loop (source lines 438-454): for each id,
`UpdateOne` (`$pull`) on `fees` then `DeleteOne` on `logs`; the first
failing primitive aborts the remaining identifiers.  Returns the state,
the unconsumed schedule, and the error if any. -/
def RejectLoop (year semester : Int) (ids : List ObjectId) (db : DB)
    (fs : Faults) : DB × Faults × Option Err :=
  match ids with
  | [] => (db, fs, none)
  | id :: rest =>
    let (f1, fs) := next fs
    match f1 with
    | some e => (db, fs, some (.storage e))
    | none =>
      let db1 := pullLog year semester id db
      let (f2, fs) := next fs
      match f2 with
      | some e => (db1, fs, some (.storage e))
      | none =>
        let db2 := deleteLog id db1
        RejectLoop year semester rest db2 fs

/-- `Reject(year, semester, ids)` (source lines 429-456).  Primitives, in
order: connect, then per identifier the pull and the delete, then
disconnect. -/
def Reject (year semester : Int) (ids : List ObjectId) (db : DB)
    (fs : Faults) : DB × Option Err :=
  let (f0, fs) := next fs
  match f0 with
  | some e => (db, some (.storage e))
  | none =>
    match RejectLoop year semester ids db fs with
    | (db', _, some e) => (db', some e)
    | (db', fs, none) =>
      let (fd, _) := next fs
      match fd with
      | some e => (db', some (.storage e))
      | none => (db', none)

/-- The state of `Deposit` between its two storage steps: the fresh log id
has been pushed onto the Term's roster, but the log record itself has not
been inserted yet (the source issues the `$push` first). -/
def DepositMid (year semester : Int) (freshId : ObjectId) (db : DB) : DB :=
  pushLog year semester freshId db

/-- `Deposit(year, semester, amount)` (source lines 464-489).  Primitives,
in order: connect, `UpdateOne` (`$push`) on `fees`, `InsertOne` on `logs`,
disconnect.  The result of the `InsertOne` is discarded by the source: on
failure the log is simply absent and no error is reported. -/
def Deposit (year semester amount : Int) (freshId : ObjectId) (now : Int)
    (db : DB) (fs : Faults) : DB × Option Err :=
  let (f0, fs) := next fs
  match f0 with
  | some e => (db, some (.storage e))
  | none =>
    let deposit := NewLog freshId "" .direct amount now
    let (f1, fs) := next fs
    match f1 with
    | some e => (db, some (.storage e))
    | none =>
      let db1 := DepositMid year semester freshId db
      let (f2, fs) := next fs
      let db2 := match f2 with
                 | some _ => db1
                 | none => insertLog deposit db1
      let (fd, _) := next fs
      match fd with
      | some e => (db2, some (.storage e))
      | none => (db2, none)

/-- The referential-integrity invariant: every log id on any Term's roster
names an existing log record. -/
def noDangling (db : DB) : Bool :=
  db.fees.all (fun f => f.logs.all (fun i => db.logs.any (fun l => l.id == i)))

/-- The natural keys (year, semester) of the stored Terms are pairwise
distinct. -/
def keysNodup (db : DB) : Prop :=
  (db.fees.map (fun f => (f.year, f.semester))).Nodup

/-- The stored log records carry pairwise distinct ids. -/
def logIdsUnique (db : DB) : Prop :=
  (db.logs.map (fun l => l.id)).Nodup

/-- Propositional form of `noDangling`. -/
def NDP (db : DB) : Prop :=
  ∀ f ∈ db.fees, ∀ i ∈ f.logs, ∃ l ∈ db.logs, l.id = i

/-- A state reached from the empty store by non-error executions of
`Create`, `Create`, `Submit`: two Terms, with log 1 submitted against Term
(2024, 1). -/
def rejectMismatchState : DB :=
  (Submit "M1" 2024 1 30000 1 10
    (Create 2024 2 50000
      (Create 2024 1 50000
        { fees := [], logs := [], members := [] } []).1 []).1 []).1

instance (db : DB) : Decidable (keysNodup db) := by
  unfold keysNodup
  infer_instance

instance (db : DB) : Decidable (logIdsUnique db) := by
  unfold logIdsUnique
  infer_instance

/-- Proof-side lookup in the grouped-amounts association list. -/
def lookupAmt : List (String × Int) → String → Option Int
  | [], _ => none
  | (k', v) :: rest, k => if k' = k then some v else lookupAmt rest k

/-- Concrete store for `all_spec_witness`: Term (2024, 1) referencing an
approved, a direct and an unapproved log. -/
def allWitnessDB : DB :=
  { fees := [{ year := 2024, semester := 1, amount := 50000,
               logs := [1, 2, 3] }],
    logs := [{ id := 1, memberID := "M1", type := LogType.approved,
               amount := 30000, updatedAt := 9 },
             { id := 2, memberID := "", type := LogType.direct,
               amount := 50000, updatedAt := 4 },
             { id := 3, memberID := "M2", type := LogType.unapproved,
               amount := 10000, updatedAt := 1 }],
    members := [] }

/-- Concrete store for `approve_spec_witness`: one unapproved log. -/
def approveWitnessDB : DB :=
  { fees := [],
    logs := [{ id := 1, memberID := "M1", type := LogType.unapproved,
               amount := 30000, updatedAt := 10 }],
    members := [] }

/-- Concrete store for `approve_frame_witness`: one term, one unapproved
log whose id is not among the approved ids. -/
def approveFrameWitnessDB : DB :=
  { fees := [New 2024 1 50000],
    logs := [{ id := 1, memberID := "M1", type := LogType.unapproved,
               amount := 30000, updatedAt := 10 }],
    members := [] }

/-- Concrete store for `dones_spec_witness` and `yets_spec_witness`: Term
(2024, 1) requiring 50000, member "M1" with two approved submissions of
30000 each, member "M2" with one approved submission of 10000, and member
"M3" with no logs at all. -/
def paidWitnessDB : DB :=
  { fees := [{ year := 2024, semester := 1, amount := 50000,
               logs := [1, 2, 3] }],
    logs := [{ id := 1, memberID := "M1", type := LogType.approved,
               amount := 30000, updatedAt := 5 },
             { id := 2, memberID := "M1", type := LogType.approved,
               amount := 30000, updatedAt := 6 },
             { id := 3, memberID := "M2", type := LogType.approved,
               amount := 10000, updatedAt := 7 }],
    members := [{ id := "M1", name := "Kim" },
                { id := "M2", name := "Lee" },
                { id := "M3", name := "Park" }] }

/-! ## General helper lemmas -/

theorem foldl_add_amount (l : List Log) : ∀ a : Int,
    l.foldl (fun acc x => acc + x.amount) a =
      a + (l.map (fun x => x.amount)).sum := by
  induction l with
  | nil => intro a; simp
  | cons x xs ih =>
    intro a
    simp only [List.foldl_cons, List.map_cons, List.sum_cons, ih]
    ring

theorem mem_updateFirst (p : α → Bool) (u : α → α) (l : List α) (x : α)
    (hx : x ∈ updateFirst p u l) : x ∈ l ∨ ∃ y ∈ l, x = u y := by
  induction l with
  | nil => cases hx
  | cons a as ih =>
    by_cases hp : p a
    · simp only [updateFirst, if_pos hp, List.mem_cons] at hx
      rcases hx with h | h
      · exact Or.inr ⟨a, List.mem_cons_self a as, h⟩
      · exact Or.inl (List.mem_cons_of_mem a h)
    · simp only [updateFirst, if_neg hp, List.mem_cons] at hx
      rcases hx with h | h
      · exact Or.inl (h ▸ List.mem_cons_self a as)
      · rcases ih h with h | ⟨y, hy, hxy⟩
        · exact Or.inl (List.mem_cons_of_mem a h)
        · exact Or.inr ⟨y, List.mem_cons_of_mem a hy, hxy⟩

end BuddyFee

namespace BuddyFee

/-- C1: `Create` fails with `DuplicateTerm` on an existing (year,
semester) and leaves the state (in particular the existing Term)
unmodified; on a fresh (year, semester) it succeeds and appends a new Term
with the given fields and an empty log roster.  Fault-free schedule. -/
theorem create_spec (y s a : Int) (db : DB) :
    ((∃ f ∈ db.fees, feeMatch y s f = true) →
      Create y s a db [] = (db, some Err.duplicatedFee)) ∧
    ((∀ f ∈ db.fees, feeMatch y s f = false) →
      Create y s a db [] = ({ db with fees := db.fees ++ [New y s a] }, none) ∧
      (New y s a).logs = [] ∧ (New y s a).year = y ∧
      (New y s a).semester = s ∧ (New y s a).amount = a) := by
  constructor
  · intro h
    have hs : (db.fees.find? (feeMatch y s)).isSome := by
      rw [List.find?_isSome]
      obtain ⟨f, hf, hp⟩ := h
      exact ⟨f, hf, hp⟩
    obtain ⟨g, hg⟩ := Option.isSome_iff_exists.mp hs
    simp [Create, next, findOneFee, hg]
  · intro h
    have hn : db.fees.find? (feeMatch y s) = none := by
      rw [List.find?_eq_none]
      intro f hf
      simp [h f hf]
    refine ⟨?_, rfl, rfl, rfl, rfl⟩
    simp [Create, next, findOneFee, hn]

/-- Witness for `create_spec` at concrete inputs: a store already holding
Term (2024, 1) rejects a duplicate, and an empty store accepts it. -/
theorem create_spec_witness :
    Create 2024 1 50000
        { fees := [{ year := 2024, semester := 1, amount := 50000, logs := [] }],
          logs := [], members := [] } [] =
      ({ fees := [{ year := 2024, semester := 1, amount := 50000, logs := [] }],
         logs := [], members := [] }, some Err.duplicatedFee) ∧
    Create 2024 1 50000 { fees := [], logs := [], members := [] } [] =
      ({ fees := [New 2024 1 50000], logs := [], members := [] }, none) := by
  constructor
  · exact (create_spec 2024 1 50000
      { fees := [{ year := 2024, semester := 1, amount := 50000, logs := [] }],
        logs := [], members := [] }).1 (by decide)
  · exact ((create_spec 2024 1 50000
      { fees := [], logs := [], members := [] }).2 (by decide)).1

/-- C2: `Amount` fails with `TermNotFound` when the Term does not exist;
otherwise it returns the sum of `amount` over every log in the whole
`logs` collection whose `member_id` is the given member and whose `type`
is `approved` — the filter never consults the named Term's `logs` roster,
so approved logs recorded against other terms are included. -/
theorem amount_spec (y s : Int) (m : String) (db : DB) :
    (findOneFee y s db = none →
      Amount y s m db [] = (0, some Err.noDocuments)) ∧
    (∀ f, findOneFee y s db = some f →
      Amount y s m db [] =
        (((db.logs.filter (fun l =>
            l.memberID == m && l.type == LogType.approved)).map
            (fun l => l.amount)).sum, none)) := by
  constructor
  · intro h
    simp [Amount, next, h]
  · intro f h
    simp [Amount, next, h, foldl_add_amount]

/-- Witness for `amount_spec`: the empty store reports `TermNotFound`; a
store holding Term (2024, 1) with an empty roster still counts member
"M1"'s approved log that belongs to no term at all. -/
theorem amount_spec_witness :
    Amount 2024 1 "M1" { fees := [], logs := [], members := [] } [] =
      (0, some Err.noDocuments) ∧
    Amount 2024 1 "M1"
        { fees := [New 2024 1 50000],
          logs := [{ id := 9, memberID := "M1", type := LogType.approved,
                     amount := 30000, updatedAt := 5 }],
          members := [] } [] = (30000, none) := by
  constructor
  · exact (amount_spec 2024 1 "M1"
      { fees := [], logs := [], members := [] }).1 (by decide)
  · have h := (amount_spec 2024 1 "M1"
      { fees := [New 2024 1 50000],
        logs := [{ id := 9, memberID := "M1", type := LogType.approved,
                   amount := 30000, updatedAt := 5 }],
        members := [] }).2 (New 2024 1 50000) (by decide)
    rw [h]
    decide

/-- C5: `All` fails with `TermNotFound` when the Term does not exist;
otherwise it returns exactly (as a permutation) the logs whose id is on
the Term's roster and whose type is `approved` or `direct`, in a sequence
that is nondecreasing in `updated_at`. -/
theorem all_spec (y s : Int) (db : DB) :
    (findOneFee y s db = none →
      All y s db [] = ([], some Err.noDocuments)) ∧
    (∀ f, findOneFee y s db = some f →
      (All y s db []).2 = none ∧
      (All y s db []).1.Perm (db.logs.filter (fun l =>
        f.logs.contains l.id &&
          (l.type == LogType.approved || l.type == LogType.direct))) ∧
      (All y s db []).1.Pairwise
        (fun a b => a.updatedAt ≤ b.updatedAt)) := by
  constructor
  · intro h
    simp [All, next, h]
  · intro f h
    have hred : All y s db [] =
        ((db.logs.filter (fun l =>
          f.logs.contains l.id &&
            (l.type == LogType.approved || l.type == LogType.direct))).insertionSort
          byUpdatedAt, none) := by
      simp [All, next, h]
    refine ⟨by rw [hred], by rw [hred]; exact List.perm_insertionSort _ _, ?_⟩
    rw [hred]
    exact (List.sorted_insertionSort byUpdatedAt _).imp (fun hab => hab)

/-- Witness for `all_spec`: the empty store reports `TermNotFound`; a Term
holding one approved, one direct and one unapproved log returns the first
two sorted by `updated_at` and drops the unapproved one. -/
theorem all_spec_witness :
    All 2024 1 { fees := [], logs := [], members := [] } [] =
      ([], some Err.noDocuments) ∧
    (All 2024 1 allWitnessDB []).2 = none ∧
    (All 2024 1 allWitnessDB []).1.map (fun l => l.id) = [2, 1] := by
  refine ⟨(all_spec 2024 1
      { fees := [], logs := [], members := [] }).1 (by decide), ?_, ?_⟩
  · exact ((all_spec 2024 1 allWitnessDB).2
      { year := 2024, semester := 1, amount := 50000, logs := [1, 2, 3] }
      (by decide)).1
  · decide

/-- C7: `Approve` is one batched update: it maps every stored log through
`approveOne`, which sets `type` to `approved` and `updated_at` to the
clock reading exactly on the logs whose id is listed; on an
already-approved log only the timestamp changes (state-wise idempotence);
and an unapproved listed log, when the clock has advanced past its last
update, ends up approved with a strictly larger `updated_at`. -/
theorem approve_spec (ids : List ObjectId) (now : Int) (db : DB) (l : Log) :
    Approve ids now db [] =
      ({ db with logs := db.logs.map (approveOne ids now) }, none) ∧
    (l.type = LogType.approved →
      approveOne ids now l =
        if ids.contains l.id then { l with updatedAt := now } else l) ∧
    (l ∈ db.logs → l.id ∈ ids →
      l.type = LogType.unapproved → l.updatedAt < now →
      ∃ l' ∈ (Approve ids now db []).1.logs,
        l'.id = l.id ∧ l'.type = LogType.approved ∧
          l.updatedAt < l'.updatedAt) := by
  refine ⟨by simp [Approve, next], ?_, ?_⟩
  · intro hl
    by_cases hc : l.id ∈ ids
    · simp [approveOne, hc, hl]
    · simp [approveOne, hc]
  · intro hmem hc _ hlt
    refine ⟨approveOne ids now l, ?_, ?_⟩
    · simp only [Approve, next]
      exact List.mem_map_of_mem (approveOne ids now) hmem
    · simp [approveOne, hc, hlt]

/-- Witness for `approve_spec`: approving log 1 at time 99 in a store
where it is unapproved with `updated_at` 10. -/
theorem approve_spec_witness :
    Approve [1] 99 approveWitnessDB [] =
      ({ fees := [],
         logs := [{ id := 1, memberID := "M1", type := LogType.approved,
                    amount := 30000, updatedAt := 99 }],
         members := [] }, none) ∧
    approveOne [1] 99 { id := 1, memberID := "M1",
                        type := LogType.approved, amount := 30000,
                        updatedAt := 10 } =
      { id := 1, memberID := "M1", type := LogType.approved,
        amount := 30000, updatedAt := 99 } ∧
    (∃ l' ∈ (Approve [1] 99 approveWitnessDB []).1.logs,
      l'.id = 1 ∧ l'.type = LogType.approved ∧ (10 : Int) < l'.updatedAt) := by
  refine ⟨?_, ?_, ?_⟩
  · have h := (approve_spec [1] 99 approveWitnessDB
      { id := 1, memberID := "M1", type := LogType.unapproved,
        amount := 30000, updatedAt := 10 }).1
    rw [h]
    decide
  · have h := (approve_spec [1] 99
      { fees := [], logs := [], members := [] }
      { id := 1, memberID := "M1", type := LogType.approved,
        amount := 30000, updatedAt := 10 }).2.1 rfl
    rw [h]
    decide
  · exact (approve_spec [1] 99 approveWitnessDB
      { id := 1, memberID := "M1", type := LogType.unapproved,
        amount := 30000, updatedAt := 10 }).2.2
      (by decide) (by decide) rfl (by decide)

/-- C10 (frame): `Approve` succeeds, leaves the `fees` and `members`
collections untouched, rewrites the `logs` collection pointwise through
`approveOne` — which preserves `id`, `member_id` and `amount`, and is the
identity on logs whose id is not listed — and with an empty id list it
changes nothing at all. -/
theorem approve_frame (ids : List ObjectId) (now : Int) (db : DB) :
    (Approve ids now db []).2 = none ∧
    (Approve ids now db []).1.fees = db.fees ∧
    (Approve ids now db []).1.members = db.members ∧
    (Approve ids now db []).1.logs = db.logs.map (approveOne ids now) ∧
    (∀ l : Log, (approveOne ids now l).id = l.id ∧
      (approveOne ids now l).memberID = l.memberID ∧
      (approveOne ids now l).amount = l.amount) ∧
    (∀ l : Log, l.id ∉ ids → approveOne ids now l = l) ∧
    (ids = [] → Approve ids now db [] = (db, none)) := by
  refine ⟨rfl, rfl, rfl, rfl, ?_, ?_, ?_⟩
  · intro l
    by_cases hc : l.id ∈ ids <;> simp [approveOne, hc]
  · intro l hc
    simp [approveOne, hc]
  · intro h
    subst h
    have hfun : approveOne [] now = id := by
      funext x
      simp [approveOne]
    simp [Approve, next, hfun]

/-- Witness for `approve_frame`: approving an absent id, and an empty id
list, changes nothing. -/
theorem approve_frame_witness :
    (Approve [7] 99 approveFrameWitnessDB []).1.fees = [New 2024 1 50000] ∧
    approveOne [7] 99 { id := 1, memberID := "M1",
                        type := LogType.unapproved, amount := 30000,
                        updatedAt := 10 } =
      { id := 1, memberID := "M1", type := LogType.unapproved,
        amount := 30000, updatedAt := 10 } ∧
    Approve [] 99 approveFrameWitnessDB [] =
      (approveFrameWitnessDB, none) := by
  refine ⟨?_, ?_, ?_⟩
  · exact (approve_frame [7] 99 approveFrameWitnessDB).2.1
  · exact (approve_frame [7] 99
      { fees := [], logs := [], members := [] }).2.2.2.2.2.1
      { id := 1, memberID := "M1", type := LogType.unapproved,
        amount := 30000, updatedAt := 10 } (by decide)
  · exact (approve_frame [] 99 approveFrameWitnessDB).2.2.2.2.2.2 rfl

/-- C8 counterexample.  The claim that every persistence-layer failure
surfaces unchanged is false on the code, at both places the claim itself
names: (a) in an empty store, a `Create` whose duplicate lookup fails with
a storage error ("connection reset") reports `DuplicateTerm`, not that
error; (b) a `Deposit` whose log insertion fails reports success
(`none`), leaves the log uninserted, and leaves the Term's roster pointing
at the missing log. -/
theorem error_propagation_counterexample :
    Create 2024 1 50000 { fees := [], logs := [], members := [] }
        [none, some "connection reset", none] =
      ({ fees := [], logs := [], members := [] },
        some Err.duplicatedFee) ∧
    (Deposit 2024 1 50000 7 100
        { fees := [New 2024 1 50000], logs := [], members := [] }
        [none, none, some "connection reset", none]).2 = none ∧
    (Deposit 2024 1 50000 7 100
        { fees := [New 2024 1 50000], logs := [], members := [] }
        [none, none, some "connection reset", none]).1 =
      ({ fees := [{ year := 2024, semester := 1, amount := 50000,
                    logs := [7] }],
         logs := [], members := [] }) := by
  decide

/-- C8 (amended): failures of the connect step and of `Create`'s insert
surface unchanged, and so does a failure of `Deposit`'s Term update; but a
failure of `Create`'s duplicate lookup is masked as `DuplicateTerm`, and a
failure of `Deposit`'s log insertion is swallowed — `Deposit` reports
success and leaves only the roster half of its write.  (No operation
consults a storage primitive more than once per step: there are no
internal retries.) -/
theorem error_propagation_amended (y s a : Int) (db : DB) (e : String)
    (freshId : ObjectId) (now : Int) :
    Create y s a db [some e] = (db, some (Err.storage e)) ∧
    Create y s a db [none, some e, none] = (db, some Err.duplicatedFee) ∧
    (findOneFee y s db = none →
      Create y s a db [none, none, some e] = (db, some (Err.storage e))) ∧
    Deposit y s a freshId now db [none, some e] =
      (db, some (Err.storage e)) ∧
    Deposit y s a freshId now db [none, none, some e, none] =
      (DepositMid y s freshId db, none) := by
  refine ⟨rfl, rfl, ?_, rfl, rfl⟩
  intro h
  simp [Create, next, h]

/-- Witness for `error_propagation_amended` at concrete inputs. -/
theorem error_propagation_amended_witness :
    Create 2024 1 50000 { fees := [], logs := [], members := [] }
        [none, none, some "boom"] =
      ({ fees := [], logs := [], members := [] },
        some (Err.storage "boom")) ∧
    Deposit 2024 1 50000 7 100 { fees := [], logs := [], members := [] }
        [none, some "boom"] =
      ({ fees := [], logs := [], members := [] },
        some (Err.storage "boom")) := by
  constructor
  · exact (error_propagation_amended 2024 1 50000
      { fees := [], logs := [], members := [] } "boom" 7 100).2.2.1
      (by decide)
  · exact (error_propagation_amended 2024 1 50000
      { fees := [], logs := [], members := [] } "boom" 7 100).2.2.2.1

/-! ## The grouped-amounts map of `Dones`/`Yets` -/

theorem lookupAmt_bump (mp : List (String × Int)) (k k' : String)
    (v : Int) :
    lookupAmt (bump mp k v) k' =
      if k' = k then some ((lookupAmt mp k').getD 0 + v)
      else lookupAmt mp k' := by
  induction mp with
  | nil =>
    by_cases h : k' = k
    · subst h
      simp [bump, lookupAmt]
    · have h2 : ¬(k = k') := fun h' => h h'.symm
      simp [bump, lookupAmt, h, h2]
  | cons q rest ih =>
    obtain ⟨a, b⟩ := q
    by_cases hak : a = k
    · subst hak
      by_cases hk' : k' = a
      · subst hk'
        simp [bump, lookupAmt]
      · have h2 : ¬(a = k') := fun h' => hk' h'.symm
        simp [bump, lookupAmt, hk', h2]
    · by_cases hk'a : k' = a
      · have h2 : ¬(k' = k) := by
          rw [hk'a]
          exact hak
        have h3 : a = k' := hk'a.symm
        simp [bump, lookupAmt, hak, h2, h3]
      · have hak' : ¬(a = k') := fun h' => hk'a h'.symm
        simp [bump, lookupAmt, hak, hak', ih]

theorem sumFor_cons (l : Log) (ls : List Log) (k : String) :
    sumFor (l :: ls) k =
      (if l.memberID = k then l.amount else 0) + sumFor ls k := by
  by_cases h : l.memberID = k <;> simp [sumFor, List.filter_cons, h]

theorem sumFor_eq_zero (ls : List Log) (k : String)
    (h : k ∉ ls.map (fun l => l.memberID)) : sumFor ls k = 0 := by
  have hf : ls.filter (fun l => l.memberID == k) = [] := by
    rw [List.filter_eq_nil_iff]
    intro l hl
    simp only [beq_iff_eq]
    intro hk
    exact h (List.mem_map.mpr ⟨l, hl, hk⟩)
  simp [sumFor, hf]

theorem lookupAmt_foldl (ls : List Log) : ∀ (acc : List (String × Int))
    (k : String),
    lookupAmt (ls.foldl (fun m l => bump m l.memberID l.amount) acc) k =
      if k ∈ ls.map (fun l => l.memberID)
      then some ((lookupAmt acc k).getD 0 + sumFor ls k)
      else lookupAmt acc k := by
  induction ls with
  | nil => intro acc k; simp
  | cons l ls ih =>
    intro acc k
    simp only [List.foldl_cons, List.map_cons, List.mem_cons]
    rw [ih, sumFor_cons]
    by_cases hk : k = l.memberID
    · subst hk
      by_cases hmem : l.memberID ∈ ls.map (fun x => x.memberID)
      · simp [hmem, lookupAmt_bump, add_assoc]
      · simp [hmem, lookupAmt_bump, sumFor_eq_zero ls _ hmem, add_assoc]
    · have hne : ¬(l.memberID = k) := fun h' => hk h'.symm
      by_cases hmem : k ∈ ls.map (fun x => x.memberID)
      · simp [hk, hmem, lookupAmt_bump, hne]
      · simp [hk, hmem, lookupAmt_bump, hne]

theorem lookupAmt_amountsMap (ls : List Log) (k : String) :
    lookupAmt (amountsMap ls) k =
      if k ∈ ls.map (fun l => l.memberID) then some (sumFor ls k)
      else none := by
  have h := lookupAmt_foldl ls [] k
  simpa [amountsMap, lookupAmt] using h

theorem mem_of_lookupAmt (mp : List (String × Int)) (k : String) (v : Int)
    (h : lookupAmt mp k = some v) : (k, v) ∈ mp := by
  induction mp with
  | nil => cases h
  | cons q rest ih =>
    obtain ⟨a, b⟩ := q
    by_cases hak : a = k
    · subst hak
      simp only [lookupAmt, if_true, eq_self_iff_true,
        Option.some.injEq] at h
      subst h
      exact List.mem_cons_self _ _
    · simp only [lookupAmt, if_neg hak] at h
      exact List.mem_cons_of_mem _ (ih h)

theorem lookupAmt_of_mem (mp : List (String × Int)) (k : String) (v : Int)
    (hnd : (mp.map Prod.fst).Nodup) (h : (k, v) ∈ mp) :
    lookupAmt mp k = some v := by
  induction mp with
  | nil => cases h
  | cons q rest ih =>
    obtain ⟨a, b⟩ := q
    simp only [List.map_cons, List.nodup_cons] at hnd
    rcases List.mem_cons.mp h with h1 | h1
    · injection h1 with hk hv
      subst hk
      subst hv
      simp [lookupAmt]
    · by_cases hak : a = k
      · subst hak
        exact absurd (List.mem_map.mpr ⟨(a, v), h1, rfl⟩) hnd.1
      · simp only [lookupAmt, if_neg hak]
        exact ih hnd.2 h1

theorem keys_bump (mp : List (String × Int)) (k : String) (v : Int) :
    (bump mp k v).map Prod.fst =
      if k ∈ mp.map Prod.fst then mp.map Prod.fst
      else mp.map Prod.fst ++ [k] := by
  induction mp with
  | nil => simp [bump]
  | cons q rest ih =>
    obtain ⟨a, b⟩ := q
    by_cases hak : a = k
    · subst hak
      simp [bump]
    · have hka : ¬(k = a) := fun h' => hak (h' ▸ rfl)
      simp only [bump, beq_iff_eq, if_neg hak, List.map_cons,
        List.mem_cons, ih]
      by_cases hmem : k ∈ rest.map Prod.fst
      · simp [hmem, hka]
      · simp [hmem, hka]

theorem nodup_keys_foldl_bump (ls : List Log) :
    ∀ acc : List (String × Int), (acc.map Prod.fst).Nodup →
      (((ls.foldl (fun m l => bump m l.memberID l.amount) acc)).map
        Prod.fst).Nodup := by
  induction ls with
  | nil => intro acc h; simpa using h
  | cons l ls ih =>
    intro acc h
    simp only [List.foldl_cons]
    apply ih
    rw [keys_bump]
    by_cases hmem : l.memberID ∈ acc.map Prod.fst
    · simpa [hmem] using h
    · rw [if_neg hmem, List.nodup_append]
      exact ⟨h, List.nodup_singleton _, by
        intro x hx hx'
        rw [List.mem_singleton] at hx'
        exact hmem (hx' ▸ hx)⟩

theorem nodup_keys_amountsMap (ls : List Log) :
    ((amountsMap ls).map Prod.fst).Nodup :=
  nodup_keys_foldl_bump ls [] (by simp)

theorem mem_qualify (p : Int → Bool) (ls : List Log) (k : String) :
    (k ∈ ((amountsMap ls).filter (fun q => p q.2)).map Prod.fst) ↔
      (k ∈ ls.map (fun l => l.memberID) ∧ p (sumFor ls k) = true) := by
  constructor
  · intro h
    rcases List.mem_map.mp h with ⟨⟨k1, v⟩, hq, hk1⟩
    simp only at hk1
    subst hk1
    obtain ⟨hmem, hp⟩ := List.mem_filter.mp hq
    have hl : lookupAmt (amountsMap ls) k1 = some v :=
      lookupAmt_of_mem _ _ _ (nodup_keys_amountsMap ls) hmem
    rw [lookupAmt_amountsMap] at hl
    by_cases hin : k1 ∈ ls.map (fun l => l.memberID)
    · rw [if_pos hin, Option.some.injEq] at hl
      exact ⟨hin, hl ▸ hp⟩
    · rw [if_neg hin] at hl
      cases hl
  · rintro ⟨hmem, hp⟩
    have hl : lookupAmt (amountsMap ls) k = some (sumFor ls k) := by
      rw [lookupAmt_amountsMap, if_pos hmem]
    exact List.mem_map.mpr ⟨(k, sumFor ls k),
      List.mem_filter.mpr ⟨mem_of_lookupAmt _ _ _ hl, hp⟩, rfl⟩

theorem contains_qualify (P : Int → Prop) [DecidablePred P] (ls : List Log)
    (x : String) :
    ((((amountsMap ls).filter (fun q => decide (P q.2))).map
        (fun q => q.1)).contains x) =
      decide (x ∈ ls.map (fun l => l.memberID) ∧ P (sumFor ls x)) := by
  by_cases hx : x ∈ ls.map (fun l => l.memberID) ∧ P (sumFor ls x)
  · have hmem := (mem_qualify (fun v => decide (P v)) ls x).mpr
      ⟨hx.1, decide_eq_true hx.2⟩
    have h1 : ((((amountsMap ls).filter (fun q => decide (P q.2))).map
        (fun q => q.1)).contains x) = true := List.elem_iff.mpr hmem
    rw [h1, decide_eq_true hx]
  · have h2 : ¬ x ∈ (((amountsMap ls).filter
        (fun q => decide (P q.2))).map (fun q => q.1)) := by
      intro hmem
      obtain ⟨h3, h4⟩ := (mem_qualify (fun v => decide (P v)) ls x).mp hmem
      exact hx ⟨h3, of_decide_eq_true h4⟩
    have h1 : ((((amountsMap ls).filter (fun q => decide (P q.2))).map
        (fun q => q.1)).contains x) = false := by
      cases hb : ((((amountsMap ls).filter (fun q => decide (P q.2))).map
        (fun q => q.1)).contains x)
      · rfl
      · exact absurd (List.elem_iff.mp hb) h2
    rw [h1, decide_eq_false hx]

theorem dones_eq (y s : Int) (db : DB) (f : Fee)
    (h : findOneFee y s db = some f) :
    Dones y s db [] =
      (db.members.filter (fun mb =>
        decide (mb.id ∈ (termApproved f db).map (fun l => l.memberID) ∧
                f.amount ≤ sumFor (termApproved f db) mb.id)), none) := by
  simp only [Dones, next, h]
  have hcong : ∀ mb ∈ db.members,
      ((((amountsMap (termApproved f db)).filter
          (fun q => decide (f.amount ≤ q.2))).map
          (fun q => q.1)).contains mb.id) =
      decide (mb.id ∈ (termApproved f db).map (fun l => l.memberID) ∧
              f.amount ≤ sumFor (termApproved f db) mb.id) :=
    fun mb _ =>
      contains_qualify (fun v => f.amount ≤ v) (termApproved f db) mb.id
  rw [List.filter_congr hcong]

theorem yets_eq (y s : Int) (db : DB) (f : Fee)
    (h : findOneFee y s db = some f) :
    Yets y s db [] =
      (db.members.filter (fun mb =>
        decide (mb.id ∈ (termApproved f db).map (fun l => l.memberID) ∧
                sumFor (termApproved f db) mb.id < f.amount)), none) := by
  simp only [Yets, next, h]
  have hcong : ∀ mb ∈ db.members,
      ((((amountsMap (termApproved f db)).filter
          (fun q => decide (q.2 < f.amount))).map
          (fun q => q.1)).contains mb.id) =
      decide (mb.id ∈ (termApproved f db).map (fun l => l.memberID) ∧
              sumFor (termApproved f db) mb.id < f.amount) :=
    fun mb _ =>
      contains_qualify (fun v => v < f.amount) (termApproved f db) mb.id
  rw [List.filter_congr hcong]

/-- C3: `Dones` (ComputePaid) fails with `TermNotFound` when the Term does
not exist; otherwise it returns, in `members`-collection order, exactly
the member records whose id occurs among the `member_id`s of the approved
logs referenced by the Term's roster and whose summed approved amount over
those logs reaches the Term's `amount`. -/
theorem dones_spec (y s : Int) (db : DB) :
    (findOneFee y s db = none →
      Dones y s db [] = ([], some Err.noDocuments)) ∧
    (∀ f, findOneFee y s db = some f →
      Dones y s db [] =
        (db.members.filter (fun mb =>
          decide (mb.id ∈ (termApproved f db).map (fun l => l.memberID) ∧
                  f.amount ≤ sumFor (termApproved f db) mb.id)), none)) := by
  constructor
  · intro h
    simp [Dones, next, h]
  · intro f h
    exact dones_eq y s db f h

/-- Witness for `dones_spec`: the empty store reports `TermNotFound`; in
`paidWitnessDB`, "M1" (30000 + 30000 ≥ 50000) is paid while "M2" (10000)
and "M3" (no logs) are not. -/
theorem dones_spec_witness :
    Dones 2024 1 { fees := [], logs := [], members := [] } [] =
      ([], some Err.noDocuments) ∧
    Dones 2024 1 paidWitnessDB [] =
      ([{ id := "M1", name := "Kim" }], none) := by
  constructor
  · exact (dones_spec 2024 1
      { fees := [], logs := [], members := [] }).1 (by decide)
  · have h := (dones_spec 2024 1 paidWitnessDB).2
      { year := 2024, semester := 1, amount := 50000, logs := [1, 2, 3] }
      (by decide)
    rw [h]
    decide

/-- C4: `Yets` (ComputeUnpaid) runs the same pipeline as `Dones` but keeps
the member ids whose summed approved amount is strictly below the Term's
`amount`; and a member with no approved log referenced by the Term appears
neither in the `Dones` result nor in the `Yets` result. -/
theorem yets_spec (y s : Int) (db : DB) :
    (findOneFee y s db = none →
      Yets y s db [] = ([], some Err.noDocuments)) ∧
    (∀ f, findOneFee y s db = some f →
      Yets y s db [] =
        (db.members.filter (fun mb =>
          decide (mb.id ∈ (termApproved f db).map (fun l => l.memberID) ∧
                  sumFor (termApproved f db) mb.id < f.amount)), none)) ∧
    (∀ f, findOneFee y s db = some f →
      ∀ mb : Member,
        mb.id ∉ (termApproved f db).map (fun l => l.memberID) →
        mb ∉ (Dones y s db []).1 ∧ mb ∉ (Yets y s db []).1) := by
  refine ⟨?_, ?_, ?_⟩
  · intro h
    simp [Yets, next, h]
  · intro f h
    exact yets_eq y s db f h
  · intro f h mb hmb
    constructor
    · rw [dones_eq y s db f h]
      intro hmem
      have := (List.mem_filter.mp hmem).2
      exact hmb (of_decide_eq_true this).1
    · rw [yets_eq y s db f h]
      intro hmem
      have := (List.mem_filter.mp hmem).2
      exact hmb (of_decide_eq_true this).1

/-- Witness for `yets_spec`: in `paidWitnessDB`, "M2" (10000 < 50000) is
unpaid, and "M3" — with no approved log for the term — is in neither
result. -/
theorem yets_spec_witness :
    Yets 2024 1 { fees := [], logs := [], members := [] } [] =
      ([], some Err.noDocuments) ∧
    Yets 2024 1 paidWitnessDB [] =
      ([{ id := "M2", name := "Lee" }], none) ∧
    ({ id := "M3", name := "Park" } : Member) ∉
      (Dones 2024 1 paidWitnessDB []).1 ∧
    ({ id := "M3", name := "Park" } : Member) ∉
      (Yets 2024 1 paidWitnessDB []).1 := by
  refine ⟨?_, ?_, ?_⟩
  · exact (yets_spec 2024 1
      { fees := [], logs := [], members := [] }).1 (by decide)
  · have h := (yets_spec 2024 1 paidWitnessDB).2.1
      { year := 2024, semester := 1, amount := 50000, logs := [1, 2, 3] }
      (by decide)
    rw [h]
    decide
  · exact (yets_spec 2024 1 paidWitnessDB).2.2
      { year := 2024, semester := 1, amount := 50000, logs := [1, 2, 3] }
      (by decide) { id := "M3", name := "Park" } (by decide)

/-! ## `Reject` -/

theorem rejectLoop_pure (y s : Int) : ∀ (ids : List ObjectId) (db : DB),
    RejectLoop y s ids db [] =
      (ids.foldl (rejectStep y s) db, [], none) := by
  intro ids
  induction ids with
  | nil => intro db; rfl
  | cons i rest ih =>
    intro db
    simp only [RejectLoop, next, List.foldl_cons]
    exact ih (deleteLog i (pullLog y s i db))

theorem reject_run (y s : Int) (ids : List ObjectId) (db : DB) :
    Reject y s ids db [] = (ids.foldl (rejectStep y s) db, none) := by
  simp only [Reject, next, rejectLoop_pure]

theorem mem_of_mem_deleteFirst (p : α → Bool) (l : List α) (x : α)
    (hx : x ∈ deleteFirst p l) : x ∈ l := by
  induction l with
  | nil => cases hx
  | cons a as ih =>
    by_cases hp : p a
    · simp only [deleteFirst, if_pos hp] at hx
      exact List.mem_cons_of_mem a hx
    · simp only [deleteFirst, if_neg hp] at hx
      rcases List.mem_cons.mp hx with h | h
      · exact h ▸ List.mem_cons_self a as
      · exact List.mem_cons_of_mem a (ih h)

theorem deleteFirst_sublist (p : α → Bool) (l : List α) :
    (deleteFirst p l).Sublist l := by
  induction l with
  | nil => exact List.Sublist.refl []
  | cons a as ih =>
    by_cases hp : p a
    · simp only [deleteFirst, if_pos hp]
      exact List.sublist_cons_self a as
    · simp only [deleteFirst, if_neg hp]
      exact List.Sublist.cons₂ a ih

theorem mem_deleteFirst_id (logs : List Log) (i : ObjectId)
    (hn : (logs.map (fun l => l.id)).Nodup) (l : Log)
    (hl : l ∈ deleteFirst (fun x => x.id == i) logs) :
    l.id ≠ i ∧ l ∈ logs := by
  induction logs with
  | nil => cases hl
  | cons x xs ih =>
    simp only [List.map_cons, List.nodup_cons] at hn
    by_cases hp : x.id = i
    · simp only [deleteFirst, hp, if_pos (beq_self_eq_true i)] at hl
      refine ⟨?_, List.mem_cons_of_mem x hl⟩
      intro hli
      exact hn.1 (List.mem_map.mpr ⟨l, hl, by rw [hli, hp]⟩)
    · have hpb : (x.id == i) = false := by simp [hp]
      simp only [deleteFirst, hpb, Bool.false_eq_true, if_false] at hl
      rcases List.mem_cons.mp hl with h | h
      · exact ⟨h ▸ hp, h ▸ List.mem_cons_self x xs⟩
      · obtain ⟨h1, h2⟩ := ih hn.2 h
        exact ⟨h1, List.mem_cons_of_mem x h2⟩

theorem rejectStep_logs_mem (y s : Int) (i : ObjectId) (db : DB) (l : Log)
    (hl : l ∈ (rejectStep y s db i).logs) : l ∈ db.logs :=
  mem_of_mem_deleteFirst _ _ _ hl

theorem rejectStep_logIdsUnique (y s : Int) (i : ObjectId) (db : DB)
    (h : logIdsUnique db) : logIdsUnique (rejectStep y s db i) := by
  simp only [logIdsUnique, rejectStep, deleteLog, pullLog] at h ⊢
  exact (((deleteFirst_sublist (fun l => l.id == i) db.logs)).map
    (fun l => l.id)).nodup h

theorem foldl_rejectStep_logs_mem (y s : Int) :
    ∀ (ids : List ObjectId) (db : DB) (l : Log),
      l ∈ (ids.foldl (rejectStep y s) db).logs → l ∈ db.logs := by
  intro ids
  induction ids with
  | nil => intro db l h; exact h
  | cons i rest ih =>
    intro db l h
    exact rejectStep_logs_mem y s i db l
      (ih (rejectStep y s db i) l (by simpa using h))

theorem foldl_rejectStep_removes (y s : Int) :
    ∀ (ids : List ObjectId) (db : DB), logIdsUnique db →
      ∀ i ∈ ids, ∀ l ∈ (ids.foldl (rejectStep y s) db).logs, l.id ≠ i := by
  intro ids
  induction ids with
  | nil =>
    intro db _ i hi
    cases hi
  | cons j rest ih =>
    intro db hnd i hi l hl
    simp only [List.foldl_cons] at hl
    rcases List.mem_cons.mp hi with h | h
    · subst h
      have hl' : l ∈ (rejectStep y s db i).logs :=
        foldl_rejectStep_logs_mem y s rest (rejectStep y s db i) l hl
      exact (mem_deleteFirst_id db.logs i hnd l hl').1
    · exact ih (rejectStep y s db j)
        (rejectStep_logIdsUnique y s j db hnd) i h l hl

theorem find?_updateFirst (p : α → Bool) (u : α → α)
    (hu : ∀ x, p (u x) = p x) : ∀ l : List α,
    List.find? p (updateFirst p u l) = (List.find? p l).map u := by
  intro l
  induction l with
  | nil => rfl
  | cons a as ih =>
    by_cases hp : p a
    · simp only [updateFirst, if_pos hp]
      rw [List.find?_cons_of_pos _ (by rw [hu]; exact hp),
        List.find?_cons_of_pos _ hp]
      rfl
    · simp only [updateFirst, if_neg hp]
      rw [List.find?_cons_of_neg _ hp,
        List.find?_cons_of_neg _ (by simpa using hp), ih]

theorem findOneFee_rejectStep (y s : Int) (i : ObjectId) (db : DB) :
    findOneFee y s (rejectStep y s db i) =
      (findOneFee y s db).map
        (fun f => { f with logs := f.logs.filter (fun x => x != i) }) := by
  have h := find?_updateFirst (feeMatch y s)
    (fun f => { f with logs := f.logs.filter (fun x => x != i) })
    (fun x => rfl) db.fees
  exact h

theorem foldl_rejectStep_roster (y s : Int) :
    ∀ (ids : List ObjectId) (db : DB) (f' : Fee),
      findOneFee y s (ids.foldl (rejectStep y s) db) = some f' →
      (∃ f, findOneFee y s db = some f ∧
        ∀ j ∈ f'.logs, j ∈ f.logs ∧ j ∉ ids) := by
  intro ids
  induction ids with
  | nil =>
    intro db f' h
    exact ⟨f', h, fun j hj => ⟨hj, by simp⟩⟩
  | cons i rest ih =>
    intro db f' h
    simp only [List.foldl_cons] at h
    obtain ⟨f1, hf1, hsub⟩ := ih (rejectStep y s db i) f' h
    rw [findOneFee_rejectStep] at hf1
    rcases hfd : findOneFee y s db with _ | f0
    · rw [hfd] at hf1
      cases hf1
    · rw [hfd] at hf1
      have hf1' : f1 =
          { f0 with logs := f0.logs.filter (fun x => x != i) } :=
        (Option.some.inj hf1).symm
      refine ⟨f0, rfl, fun j hj => ?_⟩
      obtain ⟨h1, h2⟩ := hsub j hj
      rw [hf1'] at h1
      simp only [List.mem_filter, bne_iff_ne, ne_eq, decide_eq_true_eq]
        at h1
      refine ⟨h1.1, ?_⟩
      intro hc
      rcases List.mem_cons.mp hc with hc | hc
      · exact h1.2 hc
      · exact h2 hc

/-- C6: `Reject` processes the identifiers sequentially, pulling each from
the matching Term's roster and then deleting its log record.  Under a
fault-free run on a store with unique log ids it succeeds, and afterwards
every rejected id names no stored log and is absent from the matching
Term's roster (both halves hold — no partial state per identifier).  A
failing pull aborts before any further write; a failing delete leaves that
identifier's pull in place and aborts the remaining identifiers. -/
theorem reject_spec (y s : Int) (ids : List ObjectId) (db : DB)
    (i0 : ObjectId) (rest : List ObjectId) (e : String) :
    (logIdsUnique db →
      (Reject y s ids db []).2 = none ∧
      ∀ i ∈ ids,
        (∀ l ∈ (Reject y s ids db []).1.logs, l.id ≠ i) ∧
        (∀ f', findOneFee y s (Reject y s ids db []).1 = some f' →
          i ∉ f'.logs)) ∧
    Reject y s (i0 :: rest) db [none, some e] =
      (db, some (Err.storage e)) ∧
    Reject y s (i0 :: rest) db [none, none, some e] =
      (pullLog y s i0 db, some (Err.storage e)) := by
  refine ⟨?_, rfl, rfl⟩
  intro hnd
  rw [reject_run]
  refine ⟨rfl, fun i hi => ⟨?_, ?_⟩⟩
  · exact fun l hl => foldl_rejectStep_removes y s ids db hnd i hi l hl
  · intro f' hf'
    obtain ⟨f, _, hsub⟩ := foldl_rejectStep_roster y s ids db f' hf'
    intro hc
    exact (hsub i hc).2 hi

/-- Witness for `reject_spec`: rejecting log 1 of Term (2024, 1) removes
both the log record and the roster entry; the two abort equations at a
concrete store. -/
theorem reject_spec_witness :
    Reject 2024 1 [1]
        { fees := [{ year := 2024, semester := 1, amount := 50000,
                     logs := [1] }],
          logs := [{ id := 1, memberID := "M1", type := LogType.unapproved,
                     amount := 30000, updatedAt := 10 }],
          members := [] } [] =
      ({ fees := [{ year := 2024, semester := 1, amount := 50000,
                    logs := [] }],
         logs := [], members := [] }, none) ∧
    (∀ l ∈ (Reject 2024 1 [1]
        { fees := [{ year := 2024, semester := 1, amount := 50000,
                     logs := [1] }],
          logs := [{ id := 1, memberID := "M1", type := LogType.unapproved,
                     amount := 30000, updatedAt := 10 }],
          members := [] } []).1.logs, l.id ≠ 1) := by
  constructor
  · decide
  · exact fun l hl =>
      (((reject_spec 2024 1 [1]
        { fees := [{ year := 2024, semester := 1, amount := 50000,
                     logs := [1] }],
          logs := [{ id := 1, memberID := "M1", type := LogType.unapproved,
                     amount := 30000, updatedAt := 10 }],
          members := [] } 1 [] "e").1 (by decide)).2 1
        (List.mem_singleton.mpr rfl)).1 l hl

/-! ## The no-dangling-reference invariant -/

theorem noDangling_iff (db : DB) : noDangling db = true ↔ NDP db := by
  simp [noDangling, NDP, List.all_eq_true, List.any_eq_true]

theorem approveOne_id (ids : List ObjectId) (now : Int) (l : Log) :
    (approveOne ids now l).id = l.id := by
  by_cases hc : l.id ∈ ids <;> simp [approveOne, hc]

theorem feeMatch_eq (y s : Int) (f : Fee) :
    feeMatch y s f = true ↔ (f.year = y ∧ f.semester = s) := by
  simp [feeMatch]

theorem NDP_create (y s a : Int) (db : DB) (h : NDP db) :
    NDP (Create y s a db []).1 := by
  rcases hfd : findOneFee y s db with _ | f0
  · simp only [Create, next, hfd]
    intro f hf i hi
    rcases List.mem_append.mp hf with h1 | h1
    · obtain ⟨l, hl, hli⟩ := h f h1 i hi
      exact ⟨l, hl, hli⟩
    · rw [List.mem_singleton] at h1
      subst h1
      simp [New] at hi
  · simp only [Create, next, hfd]
    exact h

theorem NDP_submitMid (m : String) (a : Int) (fid : ObjectId) (now : Int)
    (db : DB) (h : NDP db) : NDP (SubmitMid m a fid now db) := by
  intro f hf i hi
  obtain ⟨l, hl, hli⟩ := h f hf i hi
  exact ⟨l, List.mem_append_left _ hl, hli⟩

theorem submit_run (m : String) (y s a : Int) (fid : ObjectId) (now : Int)
    (db : DB) :
    Submit m y s a fid now db [] =
      (pushLog y s fid (SubmitMid m a fid now db), none) := rfl

theorem NDP_pushLog_present (y s : Int) (fid : ObjectId) (db : DB)
    (h : NDP db) (hex : ∃ l ∈ db.logs, l.id = fid) :
    NDP (pushLog y s fid db) := by
  intro f hf i hi
  rcases mem_updateFirst _ _ _ _ hf with h1 | ⟨g, hg, hfg⟩
  · exact h f h1 i hi
  · subst hfg
    rcases List.mem_append.mp hi with h2 | h2
    · exact h g hg i h2
    · rw [List.mem_singleton] at h2
      subst h2
      exact hex

theorem NDP_submit (m : String) (y s a : Int) (fid : ObjectId) (now : Int)
    (db : DB) (h : NDP db) : NDP (Submit m y s a fid now db []).1 := by
  rw [submit_run]
  exact NDP_pushLog_present y s fid _ (NDP_submitMid m a fid now db h)
    ⟨NewLog fid m .unapproved a now,
      List.mem_append_right _ (List.mem_singleton.mpr rfl), rfl⟩

theorem deposit_run (y s a : Int) (fid : ObjectId) (now : Int) (db : DB) :
    Deposit y s a fid now db [] =
      (insertLog (NewLog fid "" .direct a now)
        (DepositMid y s fid db), none) := rfl

theorem NDP_deposit (y s a : Int) (fid : ObjectId) (now : Int) (db : DB)
    (h : NDP db) : NDP (Deposit y s a fid now db []).1 := by
  rw [deposit_run]
  intro f hf i hi
  rcases mem_updateFirst _ _ _ _ hf with h1 | ⟨g, hg, hfg⟩
  · obtain ⟨l, hl, hli⟩ := h f h1 i hi
    exact ⟨l, List.mem_append_left _ hl, hli⟩
  · subst hfg
    rcases List.mem_append.mp hi with h2 | h2
    · obtain ⟨l, hl, hli⟩ := h g hg i h2
      exact ⟨l, List.mem_append_left _ hl, hli⟩
    · rw [List.mem_singleton] at h2
      exact ⟨NewLog fid "" .direct a now,
        List.mem_append_right _ (List.mem_singleton.mpr rfl), h2.symm⟩

theorem NDP_approve (ids : List ObjectId) (now : Int) (db : DB)
    (h : NDP db) : NDP (Approve ids now db []).1 := by
  intro f hf i hi
  obtain ⟨l, hl, hli⟩ := h f hf i hi
  exact ⟨approveOne ids now l,
    List.mem_map_of_mem (approveOne ids now) hl,
    (approveOne_id ids now l).trans hli⟩

theorem mem_deleteFirst_of_ne (logs : List Log) (i : ObjectId) (l : Log)
    (hl : l ∈ logs) (hne : l.id ≠ i) :
    l ∈ deleteFirst (fun x => x.id == i) logs := by
  induction logs with
  | nil => cases hl
  | cons x xs ih =>
    by_cases hp : x.id = i
    · have hpb : (x.id == i) = true := beq_iff_eq.mpr hp
      simp only [deleteFirst, hpb, if_true]
      rcases List.mem_cons.mp hl with h | h
      · exact absurd (by rw [h, hp]) hne
      · exact h
    · have hpb : (x.id == i) = false := by simp [hp]
      simp only [deleteFirst, hpb, Bool.false_eq_true, if_false]
      rcases List.mem_cons.mp hl with h | h
      · exact List.mem_cons.mpr (Or.inl h)
      · exact List.mem_cons_of_mem x (ih h)

theorem roster_after_pull (y s : Int) (i : ObjectId) :
    ∀ fees : List Fee,
      (fees.map (fun f => (f.year, f.semester))).Nodup →
      (∀ f ∈ fees, i ∈ f.logs → feeMatch y s f = true) →
      ∀ f' ∈ updateFirst (feeMatch y s)
          (fun f => { f with logs := f.logs.filter (fun x => x != i) })
          fees,
        ∀ j ∈ f'.logs, j ≠ i ∧ ∃ f ∈ fees, j ∈ f.logs := by
  intro fees
  induction fees with
  | nil =>
    intro _ _ f' hf'
    cases hf'
  | cons g gs ih =>
    intro hnd href f' hf' j hj
    simp only [List.map_cons, List.nodup_cons] at hnd
    by_cases hm : feeMatch y s g = true
    · simp only [updateFirst, hm, if_true] at hf'
      rcases List.mem_cons.mp hf' with h1 | h1
      · subst h1
        simp only [List.mem_filter, bne_iff_ne, ne_eq,
          decide_eq_true_eq] at hj
        exact ⟨hj.2, g, List.mem_cons_self g gs, hj.1⟩
      · refine ⟨?_, f', List.mem_cons_of_mem g h1, hj⟩
        intro hji
        subst hji
        have hmf' : feeMatch y s f' = true :=
          href f' (List.mem_cons_of_mem g h1) hj
        have h2 : (f'.year, f'.semester) = (g.year, g.semester) := by
          obtain ⟨h3, h4⟩ := (feeMatch_eq y s f').mp hmf'
          obtain ⟨h5, h6⟩ := (feeMatch_eq y s g).mp hm
          rw [h3, h4, h5, h6]
        exact hnd.1 (h2 ▸ List.mem_map.mpr ⟨f', h1, rfl⟩)
    · simp only [updateFirst, hm, if_false] at hf'
      rcases List.mem_cons.mp hf' with h1 | h1
      · subst h1
        refine ⟨?_, f', List.mem_cons_self f' gs, hj⟩
        intro hji
        subst hji
        exact hm (href f' (List.mem_cons_self f' gs) hj)
      · obtain ⟨hne, f, hf, hjf⟩ := ih hnd.2
          (fun f hf hif => href f (List.mem_cons_of_mem g hf) hif)
          f' h1 j hj
        exact ⟨hne, f, List.mem_cons_of_mem g hf, hjf⟩

theorem NDP_rejectStep (y s : Int) (i : ObjectId) (db : DB)
    (hnd : NDP db) (hku : keysNodup db)
    (href : ∀ f ∈ db.fees, i ∈ f.logs → feeMatch y s f = true) :
    NDP (rejectStep y s db i) := by
  intro f' hf' j hj
  obtain ⟨hne, f, hf, hjf⟩ :=
    roster_after_pull y s i db.fees hku href f' hf' j hj
  obtain ⟨l, hl, hlj⟩ := hnd f hf j hjf
  exact ⟨l, mem_deleteFirst_of_ne db.logs i l hl
    (by rw [hlj]; exact hne), hlj⟩

theorem keys_updateFirst (p : Fee → Bool) (u : Fee → Fee)
    (hu : ∀ f, (u f).year = f.year ∧ (u f).semester = f.semester) :
    ∀ fees : List Fee,
      (updateFirst p u fees).map (fun f => (f.year, f.semester)) =
        fees.map (fun f => (f.year, f.semester)) := by
  intro fees
  induction fees with
  | nil => rfl
  | cons g gs ih =>
    by_cases hp : p g
    · simp [updateFirst, hp, (hu g).1, (hu g).2]
    · simp [updateFirst, hp, ih]

theorem rejectStep_keysNodup (y s : Int) (i : ObjectId) (db : DB)
    (h : keysNodup db) : keysNodup (rejectStep y s db i) := by
  have hkeys := keys_updateFirst (feeMatch y s)
    (fun f => { f with logs := f.logs.filter (fun x => x != i) })
    (fun f => ⟨rfl, rfl⟩) db.fees
  simp only [keysNodup] at h ⊢
  exact hkeys.symm ▸ h

theorem rejectStep_href (y s : Int) (i i' : ObjectId) (db : DB)
    (href : ∀ f ∈ db.fees, i' ∈ f.logs → feeMatch y s f = true) :
    ∀ f' ∈ (rejectStep y s db i).fees, i' ∈ f'.logs →
      feeMatch y s f' = true := by
  intro f' hf' hif'
  rcases mem_updateFirst _ _ _ _ hf' with h1 | ⟨g, hg, hfg⟩
  · exact href f' h1 hif'
  · subst hfg
    exact href g hg ((List.mem_filter.mp hif').1)

theorem NDP_reject_fold (y s : Int) :
    ∀ (ids : List ObjectId) (db : DB), NDP db → keysNodup db →
      (∀ i ∈ ids, ∀ f ∈ db.fees, i ∈ f.logs → feeMatch y s f = true) →
      NDP (ids.foldl (rejectStep y s) db) := by
  intro ids
  induction ids with
  | nil =>
    intro db h _ _
    exact h
  | cons i rest ih =>
    intro db hnd hku href
    simp only [List.foldl_cons]
    refine ih (rejectStep y s db i) ?_ ?_ ?_
    · exact NDP_rejectStep y s i db hnd hku
        (href i (List.mem_cons_self i rest))
    · exact rejectStep_keysNodup y s i db hku
    · intro i' hi'
      exact rejectStep_href y s i i' db
        (href i' (List.mem_cons_of_mem i hi'))

/-- C9 counterexample.  `rejectMismatchState` is reached from the empty
store by non-error executions (two `Create`s, one `Submit`) and satisfies
the invariant; a non-error `Reject` naming Term (2024, 2) — which does not
hold log 1, while Term (2024, 1) does — deletes the log record and leaves
Term (2024, 1) with a dangling reference.  Moreover the invariant already
fails between the two storage steps of `Deposit`, because `Deposit` pushes
the fresh id onto the Term's roster before inserting the log record. -/
theorem no_dangling_counterexample :
    (Create 2024 1 50000
      { fees := [], logs := [], members := [] } []).2 = none ∧
    (Create 2024 2 50000
      (Create 2024 1 50000
        { fees := [], logs := [], members := [] } []).1 []).2 = none ∧
    (Submit "M1" 2024 1 30000 1 10
      (Create 2024 2 50000
        (Create 2024 1 50000
          { fees := [], logs := [], members := [] } []).1 []).1 []).2 =
      none ∧
    noDangling rejectMismatchState = true ∧
    (Reject 2024 2 [1] rejectMismatchState []).2 = none ∧
    noDangling (Reject 2024 2 [1] rejectMismatchState []).1 = false ∧
    noDangling (DepositMid 2024 1 2 rejectMismatchState) = false ∧
    Deposit 2024 1 50000 2 20 rejectMismatchState [] =
      (insertLog (NewLog 2 "" LogType.direct 50000 20)
        (DepositMid 2024 1 2 rejectMismatchState), none) := by
  decide

/-- C9 (amended): the no-dangling invariant is preserved end-to-end by
fault-free runs of `Create`, `Submit`, `Deposit` and `Approve`, and holds
at `Submit`'s midpoint (the log is inserted before the Term is updated);
`Reject` preserves it provided the Terms' natural keys are distinct and
every rejected id is referenced only by Terms matching the named (year,
semester).  It does not hold between `Deposit`'s two steps — `Deposit`
pushes the fresh id before inserting the log — and a `Reject` naming a
term other than the one holding a rejected id breaks it (see the
counterexample). -/
theorem no_dangling_amended (y s a : Int) (m : String) (fid : ObjectId)
    (now : Int) (db : DB) (ids : List ObjectId) :
    (noDangling db = true → noDangling (Create y s a db []).1 = true) ∧
    (noDangling db = true →
      noDangling (SubmitMid m a fid now db) = true ∧
      noDangling (Submit m y s a fid now db []).1 = true) ∧
    Submit m y s a fid now db [] =
      (pushLog y s fid (SubmitMid m a fid now db), none) ∧
    (noDangling db = true →
      noDangling (Deposit y s a fid now db []).1 = true) ∧
    Deposit y s a fid now db [] =
      (insertLog (NewLog fid "" LogType.direct a now)
        (DepositMid y s fid db), none) ∧
    (noDangling db = true → noDangling (Approve ids now db []).1 = true) ∧
    (noDangling db = true → keysNodup db →
      (∀ i ∈ ids, ∀ f ∈ db.fees, i ∈ f.logs → feeMatch y s f = true) →
      noDangling (Reject y s ids db []).1 = true) := by
  refine ⟨?_, ?_, rfl, ?_, rfl, ?_, ?_⟩
  · intro h
    exact (noDangling_iff _).mpr (NDP_create y s a db ((noDangling_iff _).mp h))
  · intro h
    exact ⟨(noDangling_iff _).mpr
        (NDP_submitMid m a fid now db ((noDangling_iff _).mp h)),
      (noDangling_iff _).mpr
        (NDP_submit m y s a fid now db ((noDangling_iff _).mp h))⟩
  · intro h
    exact (noDangling_iff _).mpr
      (NDP_deposit y s a fid now db ((noDangling_iff _).mp h))
  · intro h
    exact (noDangling_iff _).mpr
      (NDP_approve ids now db ((noDangling_iff _).mp h))
  · intro h hku href
    rw [reject_run]
    exact (noDangling_iff _).mpr
      (NDP_reject_fold y s ids db ((noDangling_iff _).mp h) hku href)

/-- Witness for `no_dangling_amended`: the invariant holds after each
operation on a concrete store where Term (2024, 1) is the only term and
holds log 1. -/
theorem no_dangling_amended_witness :
    noDangling (Create 2025 1 40000
      { fees := [{ year := 2024, semester := 1, amount := 50000,
                   logs := [1] }],
        logs := [{ id := 1, memberID := "M1", type := LogType.unapproved,
                   amount := 30000, updatedAt := 10 }],
        members := [] } []).1 = true ∧
    noDangling (Submit "M2" 2024 1 20000 2 11
      { fees := [{ year := 2024, semester := 1, amount := 50000,
                   logs := [1] }],
        logs := [{ id := 1, memberID := "M1", type := LogType.unapproved,
                   amount := 30000, updatedAt := 10 }],
        members := [] } []).1 = true ∧
    noDangling (Deposit 2024 1 50000 3 12
      { fees := [{ year := 2024, semester := 1, amount := 50000,
                   logs := [1] }],
        logs := [{ id := 1, memberID := "M1", type := LogType.unapproved,
                   amount := 30000, updatedAt := 10 }],
        members := [] } []).1 = true ∧
    noDangling (Approve [1] 13
      { fees := [{ year := 2024, semester := 1, amount := 50000,
                   logs := [1] }],
        logs := [{ id := 1, memberID := "M1", type := LogType.unapproved,
                   amount := 30000, updatedAt := 10 }],
        members := [] } []).1 = true ∧
    noDangling (Reject 2024 1 [1]
      { fees := [{ year := 2024, semester := 1, amount := 50000,
                   logs := [1] }],
        logs := [{ id := 1, memberID := "M1", type := LogType.unapproved,
                   amount := 30000, updatedAt := 10 }],
        members := [] } []).1 = true := by
  refine ⟨?_, ?_, ?_, ?_, ?_⟩
  · exact (no_dangling_amended 2025 1 40000 "M2" 2 11
      { fees := [{ year := 2024, semester := 1, amount := 50000,
                   logs := [1] }],
        logs := [{ id := 1, memberID := "M1", type := LogType.unapproved,
                   amount := 30000, updatedAt := 10 }],
        members := [] } []).1 (by decide)
  · exact ((no_dangling_amended 2024 1 20000 "M2" 2 11
      { fees := [{ year := 2024, semester := 1, amount := 50000,
                   logs := [1] }],
        logs := [{ id := 1, memberID := "M1", type := LogType.unapproved,
                   amount := 30000, updatedAt := 10 }],
        members := [] } []).2.1 (by decide)).2
  · exact (no_dangling_amended 2024 1 50000 "M2" 3 12
      { fees := [{ year := 2024, semester := 1, amount := 50000,
                   logs := [1] }],
        logs := [{ id := 1, memberID := "M1", type := LogType.unapproved,
                   amount := 30000, updatedAt := 10 }],
        members := [] } []).2.2.2.1 (by decide)
  · exact (no_dangling_amended 2024 1 50000 "M2" 3 13
      { fees := [{ year := 2024, semester := 1, amount := 50000,
                   logs := [1] }],
        logs := [{ id := 1, memberID := "M1", type := LogType.unapproved,
                   amount := 30000, updatedAt := 10 }],
        members := [] } [1]).2.2.2.2.2.1 (by decide)
  · exact (no_dangling_amended 2024 1 50000 "M2" 3 13
      { fees := [{ year := 2024, semester := 1, amount := 50000,
                   logs := [1] }],
        logs := [{ id := 1, memberID := "M1", type := LogType.unapproved,
                   amount := 30000, updatedAt := 10 }],
        members := [] } [1]).2.2.2.2.2.2 (by decide) (by decide)
      (by decide)

end BuddyFee
